import Mathlib

/-!
Shallow embedding of the steam2sqlite ingestion pipeline
(`src/steam2sqlite/handler.py`, `src/steam2sqlite/main.py`,
`src/steam2sqlite/models.py`) and proofs about it.

Conventions of the embedding:
* Python `dict` payloads become structures whose fields are `Option`-valued
  when the source reads them with `.get(...)` (absence is `none`) and also
  `Option`-valued when the source subscripts them (`d["k"]`), in which case
  absence raises an embedded `KeyError`.
* Timestamps (`datetime.utcnow()`) are `Nat` tick counts; `.date()` is
  truncation to the calendar day (`dateOf`).
* Fallible code returns `Except PyErr`; an error discards the staged
  database state, mirroring an aborted (never committed) transaction.
* The database session is an explicit `DB` value; surrogate primary keys
  come from a single running counter `DB.nextPk`.
-/

namespace Steam2Sqlite

/-- Ticks per calendar day; `dateOf` embeds `datetime.date()` truncation. -/
def SECONDS_PER_DAY : Nat := 86400

/-- Calendar day of a tick-count timestamp, as used by `utcnow().date()`. -/
def dateOf (t : Nat) : Nat := t / SECONDS_PER_DAY

/-- A calendar date value as produced by `datetime.strptime(...).date()`. -/
structure SDate where
  year : Int
  month : Nat
  day : Nat
deriving DecidableEq, Repr

/-- Abbreviated month names recognised by the `%b` directive. -/
def MONTH_ABBRS : List String :=
  ["Jan", "Feb", "Mar", "Apr", "May", "Jun",
   "Jul", "Aug", "Sep", "Oct", "Nov", "Dec"]

/-- 1-based month number of a `%b` month abbreviation. -/
def monthIndex (m : String) : Option Nat :=
  (MONTH_ABBRS.findIdx? (fun x => x == m)).map (fun i => i + 1)

/-- Embeds `datetime.strptime(s, "%b %d, %Y").date()` (handler.py line 106):
a best-effort parse of the fixed month/day/year format, `none` standing for
the `ValueError` path that `load_into_db` swallows. -/
def strptimeBDY (s : String) : Option SDate :=
  match s.splitOn ", " with
  | [md, ys] =>
    match md.splitOn " " with
    | [ms, ds] =>
      match monthIndex ms, ds.toNat?, ys.toNat? with
      | some m, some d, some y =>
        if 1 ≤ d ∧ d ≤ 31 ∧ ys.length = 4 then some ⟨(y : Int), m, d⟩ else none
      | _, _, _ => none
    | _ => none
  | _ => none

/-- First-occurrence deduplication, the key order of a Python dictionary
built by repeated assignment. -/
def dedupFirst {α : Type} [DecidableEq α] : List α → List α
  | [] => []
  | a :: l => a :: (dedupFirst l).filter (fun b => decide (b ≠ a))

/-- One element of the payload's `genres` / `categories` lists:
`{"id": ..., "description": ...}`. -/
structure TagData where
  id : Int
  description : String
deriving DecidableEq, Repr

/-- The payload's optional `metacritic` block (read with `.get`). -/
structure MetacriticData where
  score : Option Int
  url : Option String
deriving DecidableEq, Repr

/-- The payload's optional `recommendations` block. -/
structure RecommendationsData where
  total : Option Int
deriving DecidableEq, Repr

/-- The payload's optional `achievements` block; `total` is read with
`.get("total", 0)`. -/
structure AchievementsData where
  total : Option Int
deriving DecidableEq, Repr

/-- The payload's optional `release_date` block. -/
structure ReleaseDateData where
  coming_soon : Option Bool
  date : Option String
deriving DecidableEq, Repr

/-- The `data` dictionary of a detail payload.  Fields the source subscripts
(`steam_appid`, `type`, `name`) are `Option`-valued here: `none` makes the
embedded access raise `KeyError`, exactly like a missing dictionary key. -/
structure AppData where
  steam_appid : Option Int
  type : Option String
  is_free : Option Bool
  name : Option String
  controller_support : Option String
  metacritic : Option MetacriticData
  recommendations : Option RecommendationsData
  achievements : Option AchievementsData
  release_date : Option ReleaseDateData
  genres : Option (List TagData)
  categories : Option (List TagData)
deriving DecidableEq, Repr

/-- One detail-endpoint payload `{ "<id>": {"success": ..., "data": ...} }`:
`appidKey` is the single outer key (`list(item.keys())[0]`). -/
structure Item where
  appidKey : Int
  success : Option Bool
  data : Option AppData
deriving DecidableEq, Repr

/-- One record of an achievement-percentage payload. -/
structure AchievementData where
  name : String
  percent : Int
deriving DecidableEq, Repr

/-- A stored `Category` / `Genre` row (models.py 36-42, 54-60). -/
structure TagRow where
  pk : Nat
  id : Int
  description : String
deriving DecidableEq, Repr

/-- A stored `SteamApp` row (models.py 63-87).  The many-to-many link tables
are folded into per-row lists of tag primary keys. -/
structure SteamAppRow where
  pk : Nat
  appid : Int
  type : Option String
  is_free : Option Bool
  name : String
  controller_support : Option String
  metacritic_score : Option Int
  metacritic_url : Option String
  recommendations : Option Int
  achievements_total : Option Int
  release_date : Option SDate
  created : Nat
  updated : Nat
  category_pks : List Nat
  genre_pks : List Nat
deriving DecidableEq, Repr

/-- The value stored in `AppidError.name`: `store_apps_data` passes
`steam_appids_names.get(e.appid, 0)`, so the column may receive either a
string or the integer default `0`. -/
inductive NameVal where
  | str (s : String)
  | num (n : Int)
deriving DecidableEq, Repr

/-- A stored `AppidError` row (models.py 90-98), the quarantine ledger. -/
structure AppidErrorRow where
  pk : Nat
  appid : Int
  name : NameVal
  reason : Option String
deriving DecidableEq, Repr

/-- A stored `Achievement` row; `steam_app_pk` is the owning entry. -/
structure AchievementRow where
  pk : Nat
  steam_app_pk : Nat
  name : String
  percent : Int
deriving DecidableEq, Repr

/-- The whole SQLite database visible to the pipeline. -/
structure DB where
  nextPk : Nat
  apps : List SteamAppRow
  categories : List TagRow
  genres : List TagRow
  achievements : List AchievementRow
  appid_errors : List AppidErrorRow
deriving DecidableEq, Repr

/-- A freshly created empty database. -/
def dbEmpty : DB := ⟨0, [], [], [], [], []⟩

/-- Exceptions the embedded code can raise.  `dataParsingError` is the
handler's own exception class; the others stand for the Python/driver
exceptions (`KeyError`, `IntegrityError`, `TypeError`,
`MultipleResultsFound`) that no handler code catches. -/
inductive PyErr where
  | keyError (key : String)
  | dataParsingError (appid : Int) (reason : String)
  | integrityError
  | typeError
  | multipleResults
deriving DecidableEq, Repr

/-- Embeds `get_or_create(session, model, **kwargs)` (handler.py 20-28) at a
`Category` / `Genre` table: `filter_by` matches every passed column, so the
lookup is by the (id, description) pair, not by id alone. -/
def getOrCreateTag (rows : List TagRow) (nextPk : Nat) (t : TagData) :
    TagRow × List TagRow × Nat :=
  match rows.find? (fun r => r.id == t.id && r.description == t.description) with
  | some r => (r, rows, nextPk)
  | none =>
    let r : TagRow := ⟨nextPk, t.id, t.description⟩
    (r, rows ++ [r], nextPk + 1)

/-- Resolves a list of payload tags through `get_or_create`, threading the
table state and collecting the resolved rows' primary keys. -/
def loadTagList (rows : List TagRow) (nextPk : Nat) :
    List TagData → List Nat × List TagRow × Nat
  | [] => ([], rows, nextPk)
  | t :: ts =>
    let g := getOrCreateTag rows nextPk t
    let rest := loadTagList g.2.1 g.2.2 ts
    (g.1.pk :: rest.1, rest.2.1, rest.2.2)

/-- Last payload tag carrying a given id. -/
def lastTagWithId (l : List TagData) (i : Int) : Option TagData :=
  (l.filter (fun t => t.id == i)).getLast?

/-- Embeds `list({v["id"]: v for v in l}.values())` (handler.py 77, 83):
dictionary keys keep first-occurrence order while a repeated key keeps the
last value assigned to it. -/
def dedupTagsById (l : List TagData) : List TagData :=
  (dedupFirst (l.map (fun t => t.id))).filterMap (fun i => lastTagWithId l i)

/-- Embeds handler.py 86-89. -/
def metacriticScoreOf (d : AppData) : Option Int :=
  d.metacritic.bind (fun m => m.score)

/-- Embeds handler.py 86-89. -/
def metacriticUrlOf (d : AppData) : Option String :=
  d.metacritic.bind (fun m => m.url)

/-- Embeds handler.py 91-93. -/
def recommendationsOf (d : AppData) : Option Int :=
  d.recommendations.bind (fun r => r.total)

/-- Embeds handler.py 95-97: `data["achievements"].get("total", 0)` when the
block is present, `0` otherwise — always an integer. -/
def achievementsTotalOf (d : AppData) : Int :=
  match d.achievements with
  | some a => a.total.getD 0
  | none => 0

/-- Embeds handler.py 99-109: the release date is parsed only when the block
exists and is not flagged `coming_soon`; a missing/empty/unparsable date
string gives `none` rather than an error. -/
def releaseDateOf (d : AppData) : Option SDate :=
  match d.release_date with
  | none => none
  | some rd =>
    if rd.coming_soon == some true then none
    else
      match rd.date with
      | none => none
      | some s => if s == "" then none else strptimeBDY s

/-- Embeds `load_into_db` (handler.py 72-139).  Tag rows are resolved first,
then the entry attributes are built (a missing subscripted key raising
`KeyError`), then the entry is updated in place or created.  The `updated`
column refreshes on every write via its `onupdate` hook; `created` is set
only on insert.  An error result discards the staged state, like an aborted
transaction. -/
def loadIntoDb (db : DB) (data : AppData) (now : Nat) :
    Except PyErr (DB × SteamAppRow) :=
  let g := loadTagList db.genres db.nextPk (dedupTagsById (data.genres.getD []))
  let genrePks := g.1
  let genreRows := g.2.1
  let c := loadTagList db.categories g.2.2 (dedupTagsById (data.categories.getD []))
  let categoryPks := c.1
  let categoryRows := c.2.1
  let pk2 := c.2.2
  match data.steam_appid with
  | none => .error (.keyError "steam_appid")
  | some sid =>
    match data.type with
    | none => .error (.keyError "type")
    | some ty =>
      match data.name with
      | none => .error (.keyError "name")
      | some nm =>
        let existing := db.apps.filter (fun r => r.appid == sid)
        if 2 ≤ existing.length then .error .multipleResults
        else
          match existing with
          | old :: _ =>
            let row : SteamAppRow :=
              { pk := old.pk, appid := sid, type := some ty,
                is_free := data.is_free, name := nm,
                controller_support := data.controller_support,
                metacritic_score := metacriticScoreOf data,
                metacritic_url := metacriticUrlOf data,
                recommendations := recommendationsOf data,
                achievements_total := some (achievementsTotalOf data),
                release_date := releaseDateOf data,
                created := old.created, updated := now,
                category_pks := categoryPks, genre_pks := genrePks }
            let apps' := db.apps.map (fun r => if r.appid == sid then row else r)
            .ok ({ db with
                    apps := apps', categories := categoryRows,
                    genres := genreRows, nextPk := pk2 }, row)
          | [] =>
            let row : SteamAppRow :=
              { pk := pk2, appid := sid, type := some ty,
                is_free := data.is_free, name := nm,
                controller_support := data.controller_support,
                metacritic_score := metacriticScoreOf data,
                metacritic_url := metacriticUrlOf data,
                recommendations := recommendationsOf data,
                achievements_total := some (achievementsTotalOf data),
                release_date := releaseDateOf data,
                created := now, updated := now,
                category_pks := categoryPks, genre_pks := genrePks }
            .ok ({ db with
                    apps := db.apps ++ [row], categories := categoryRows,
                    genres := genreRows, nextPk := pk2 + 1 }, row)

/-- Embeds `import_single_item` (handler.py 142-161).  Only the two explicit
`DataParsingError` raises are catchable failures; a missing `success` or
`data` key raises a bare `KeyError`. -/
def importSingleItem (db : DB) (item : Item) (now : Nat) :
    Except PyErr (DB × SteamAppRow) :=
  match item.success with
  | none => .error (.keyError "success")
  | some false =>
    .error (.dataParsingError item.appidKey "Response from api: success=False")
  | some true =>
    match item.data with
    | none => .error (.keyError "data")
    | some data =>
      match data.steam_appid with
      | none => .error (.keyError "steam_appid")
      | some sid =>
        if item.appidKey ≠ sid then
          .error (.dataParsingError item.appidKey
            ("duplicate entry with current appid " ++ toString item.appidKey ++
             " and steam appid: " ++ toString sid))
        else
          loadIntoDb db data now

/-- Embeds `record_appid_error` (handler.py 174-180): `get_or_create` over
`AppidError` matches every passed column; inserting a second row for an
appid already present (with a different name or reason) violates the
table's unique-appid constraint at commit. -/
def recordAppidError (db : DB) (appid : Int) (name : NameVal)
    (reason : Option String) : Except PyErr DB :=
  match db.appid_errors.find?
      (fun r => decide (r.appid = appid ∧ r.name = name ∧ r.reason = reason)) with
  | some _ => .ok db
  | none =>
    if db.appid_errors.any (fun r => r.appid == appid) then .error .integrityError
    else
      .ok { db with
            appid_errors := db.appid_errors ++ [⟨db.nextPk, appid, name, reason⟩],
            nextPk := db.nextPk + 1 }

/-- Python dictionary lookup over an association list: the last binding of a
key wins, as with repeated dictionary assignment. -/
def dictGet (l : List (Int × String)) (k : Int) : Option String :=
  ((l.filter (fun p => p.1 == k)).getLast?).map (fun p => p.2)

/-- Python dictionary key view: first-occurrence order, each key once. -/
def dictKeys (l : List (Int × String)) : List Int :=
  dedupFirst (l.map (fun p => p.1))

/-- Embeds `steam_appids_names.get(e.appid, 0)` (handler.py 218). -/
def dictGetNameD (l : List (Int × String)) (k : Int) : NameVal :=
  match dictGet l k with
  | some s => .str s
  | none => .num 0

/-- Embeds `store_apps_data` (handler.py 206-220): each payload is imported;
a `DataParsingError` is recorded in the quarantine ledger and the loop
continues; any other exception propagates and aborts the loop. -/
def storeAppsData (db : DB) (names : List (Int × String)) (now : Nat) :
    List Item → Except PyErr (DB × List SteamAppRow)
  | [] => .ok (db, [])
  | item :: rest =>
    match importSingleItem db item now with
    | .ok (db1, app) =>
      match storeAppsData db1 names now rest with
      | .ok (db2, apps) => .ok (db2, app :: apps)
      | .error e => .error e
    | .error (.dataParsingError a r) =>
      match recordAppidError db a (dictGetNameD names a) (some r) with
      | .ok db1 => storeAppsData db1 names now rest
      | .error e => .error e
    | .error e => .error e

/-- Outcome of one detail-endpoint request, the per-id payload-or-failure
marker of spec §4.2: `ok` is a response whose `raise_for_status` passes and
whose body parses, `httpError` is the `httpx.HTTPError` family (timeouts
and HTTP error statuses), carrying the reason string the handler reads. -/
inductive Resp where
  | ok (item : Item)
  | httpError (reason : String)
deriving Repr

/-- Embeds `get_apps_data` (handler.py 185-203): responses arrive in request
order (`zip(appids, responses)`); an `httpx.HTTPError` for one id records
that id in the quarantine ledger via `record_appid_error` — reading the
name with `steam_appids_names[appid]`, which raises `KeyError` for an
unknown id — and the loop continues; successful payloads are collected in
order. -/
def getAppsData (db : DB) (names : List (Int × String)) (fetch : Int → Resp) :
    List Int → Except PyErr (DB × List Item)
  | [] => .ok (db, [])
  | a :: rest =>
    match fetch a with
    | .ok item =>
      match getAppsData db names fetch rest with
      | .ok (db1, items) => .ok (db1, item :: items)
      | .error e => .error e
    | .httpError reason =>
      match dictGet names a with
      | none => .error (.keyError (toString a))
      | some n =>
        match recordAppidError db a (.str n) (some reason) with
        | .ok db1 => getAppsData db1 names fetch rest
        | .error e => .error e

/-- Modelled from the spec: `get_and_store_app_data`, which the driver
imports from the handler module but which is absent from the handler
source; per §2's data flow it executes the batch fetch and then stores the
fetched payloads (BatchFetcher → RecordNormalizer → ReconciliationWriter). -/
def getAndStoreAppData (db : DB) (names : List (Int × String))
    (fetch : Int → Resp) (now : Nat) (appids : List Int) :
    Except PyErr (DB × List SteamAppRow) :=
  match getAppsData db names fetch appids with
  | .ok (db1, items) => storeAppsData db1 names now items
  | .error e => .error e

/-- Embeds `get_apps_achievements` (handler.py 49-57): `asyncio.gather`
returns one result per task in task-submission order, i.e. in the order of
`apps`; each task's transport failures already collapse to `[]` inside
`get_app_achievements`, so the per-id fetch is modelled as a plain
function from appid to the returned list. -/
def getAppsAchievements (apps : List SteamAppRow)
    (afetch : Int → List AchievementData) : List (List AchievementData) :=
  apps.map (fun a => afetch a.appid)

/-- Embeds `get_or_create` at the `Achievement` table: the kwargs are the
achievement record's fields plus the owning `steam_app`. -/
def getOrCreateAchievement (rows : List AchievementRow) (nextPk : Nat)
    (appPk : Nat) (d : AchievementData) : List AchievementRow × Nat :=
  match rows.find? (fun r =>
      decide (r.steam_app_pk = appPk ∧ r.name = d.name ∧ r.percent = d.percent)) with
  | some _ => (rows, nextPk)
  | none => (rows ++ [⟨nextPk, appPk, d.name, d.percent⟩], nextPk + 1)

/-- Stores one app's achievement list through `get_or_create`. -/
def storeAchList (rows : List AchievementRow) (nextPk : Nat) (appPk : Nat) :
    List AchievementData → List AchievementRow × Nat
  | [] => (rows, nextPk)
  | d :: ds =>
    let g := getOrCreateAchievement rows nextPk appPk d
    storeAchList g.1 g.2 appPk ds

/-- The loop body of `store_apps_achievements` over the zipped pairs. -/
def storeAppsPairs (db : DB) :
    List (SteamAppRow × List AchievementData) → DB
  | [] => db
  | p :: rest =>
    let g := storeAchList db.achievements db.nextPk p.1.pk p.2
    storeAppsPairs { db with achievements := g.1, nextPk := g.2 } rest

/-- Embeds `store_apps_achievements` (handler.py 60-69):
`zip(apps, achievements_dict)` pairs the i-th app with the i-th fetched
list. -/
def storeAppsAchievements (db : DB) (apps : List SteamAppRow)
    (achs : List (List AchievementData)) : DB :=
  storeAppsPairs db (apps.zip achs)

/-- Modelled from the spec: the driver calls
`get_apps_achievements(session, apps_with_achievements)`, a session-taking
variant absent from the handler source; per §4.6 the enricher fetches every
given entry's achievement list and upserts each returned achievement, i.e.
the composition of the handler's fetch and store steps. -/
def runEnrichment (db : DB) (apps : List SteamAppRow)
    (afetch : Int → List AchievementData) : DB :=
  storeAppsAchievements db apps (getAppsAchievements apps afetch)

/-- The ordering used by the embedded `ORDER BY updated ASC`. -/
def byUpdated (p q : Int × Nat) : Prop := p.2 ≤ q.2

instance : DecidableRel byUpdated := fun p q => Nat.decLe p.2 q.2

instance : IsTotal (Int × Nat) byUpdated := ⟨fun p q => Nat.le_total p.2 q.2⟩

instance : IsTrans (Int × Nat) byUpdated := ⟨fun _ _ _ => Nat.le_trans⟩

/-- Sort by the `updated` component, ascending. -/
def sortByUpdated (l : List (Int × Nat)) : List (Int × Nat) :=
  List.insertionSort byUpdated l

/-- Embeds `get_appids_from_db` (handler.py 164-167): every stored
(appid, updated) pair, ordered by `updated` ascending. -/
def getAppidsFromDb (db : DB) : List (Int × Nat) :=
  sortByUpdated (db.apps.map (fun r => (r.appid, r.updated)))

/-- Embeds `get_error_appids` (handler.py 170-171). -/
def getErrorAppids (db : DB) : List Int :=
  db.appid_errors.map (fun r => r.appid)

/-- Embeds main.py 60-63: remote ids with no local row.  The iteration
order of the Python set difference is unspecified; the model keeps the
remote listing's key order. -/
def missingAppids (names : List (Int × String)) (db : DB) : List Int :=
  (dictKeys names).filter
    (fun a => !((getAppidsFromDb db).map (fun p => p.1)).contains a)

/-- Embeds main.py 65-70: local appids whose `updated` calendar date lies
more than 3 days before the current calendar date
(`(utcnow().date() - updated.date()).days > 3`), in `updated`-ascending
order. -/
def staleDbAppids (db : DB) (now : Nat) : List Int :=
  ((getAppidsFromDb db).filter
      (fun p => decide (3 < (dateOf now : Int) - (dateOf p.2 : Int)))).map
    (fun p => p.1)

/-- Embeds main.py 72-80: missing ids first, then stale ids, minus every
id present in the quarantine ledger. -/
def appidsToProcess (names : List (Int × String)) (db : DB) (now : Nat) :
    List Int :=
  (missingAppids names db ++ staleDbAppids db now).filter
    (fun a => !(getErrorAppids db).contains a)

/-- Modelled from the spec: `BATCH_SIZE` is imported from the package root,
which is absent from the sources; §4.4/§4.2 fix it only as a positive
constant. -/
def BATCH_SIZE : Nat := 1000

/-- Worker for `chunkList`; the fuel argument is an upper bound on the list
length, making the recursion structural. -/
def chunkListAux (n : Nat) : Nat → List Int → List (List Int)
  | _, [] => []
  | 0, _ :: _ => []
  | fuel + 1, a :: l => (a :: l.take (n - 1)) :: chunkListAux n fuel (l.drop (n - 1))

/-- Embeds `utils.grouper(urls_total, BATCH_SIZE, fillvalue=None)` combined
with `get_apps_data`'s `if appid is not None` filter: consecutive chunks of
at most `n` ids, no padding. -/
def chunkList (n : Nat) (l : List Int) : List (List Int) :=
  chunkListAux n l.length l

/-- Embeds main.py 88: `[app for app in apps if app.achievements_total > 0]`;
comparing a NULL column with `0` raises `TypeError`. -/
def appsWithAchievements : List SteamAppRow → Except PyErr (List SteamAppRow)
  | [] => .ok []
  | a :: rest =>
    match a.achievements_total with
    | none => .error .typeError
    | some n =>
      match appsWithAchievements rest with
      | .ok l => .ok (if 0 < n then a :: l else l)
      | .error e => .error e

/-- One iteration of the driver's batch loop (main.py 84-92): fetch and
store the batch, then enrich the newly written apps that have a positive
achievement total. -/
def runBatch (names : List (Int × String)) (fetch : Int → Resp)
    (afetch : Int → List AchievementData) (now : Nat) (db : DB)
    (batch : List Int) : Except PyErr DB :=
  match getAndStoreAppData db names fetch now batch with
  | .error e => .error e
  | .ok (db1, apps) =>
    match appsWithAchievements apps with
    | .error e => .error e
    | .ok l => .ok (runEnrichment db1 l afetch)

/-- The driver's batch loop over all chunks. -/
def runBatches (names : List (Int × String)) (fetch : Int → Resp)
    (afetch : Int → List AchievementData) (now : Nat) (db : DB) :
    List (List Int) → Except PyErr DB
  | [] => .ok db
  | b :: bs =>
    match runBatch names fetch afetch now db b with
    | .ok db1 => runBatches names fetch afetch now db1 bs
    | .error e => .error e

/-- Embeds `main` (main.py 46-94): select the work set, batch it, and run
fetch → store → enrich per batch. -/
def runPipeline (names : List (Int × String)) (fetch : Int → Resp)
    (afetch : Int → List AchievementData) (now : Nat) (db : DB) :
    Except PyErr DB :=
  runBatches names fetch afetch now db
    (chunkList BATCH_SIZE (appidsToProcess names db now))

/-- Appid uniqueness, the `steam_app.appid` unique-column invariant. -/
def appidNodup (db : DB) : Prop :=
  (db.apps.map (fun r => r.appid)).Nodup

/-- All stored appids. -/
def dbAppids (db : DB) : List Int := db.apps.map (fun r => r.appid)

/-- All stored (appid, updated) pairs, in storage order. -/
def localPairs (db : DB) : List (Int × Nat) :=
  db.apps.map (fun r => (r.appid, r.updated))

/-- An id is resolved for a run at time `now` when it is quarantined or has
a stored row written at `now`. -/
def resolvedAt (db : DB) (now : Nat) (a : Int) : Prop :=
  a ∈ getErrorAppids db ∨ ∃ r ∈ db.apps, r.appid = a ∧ r.updated = now

/-- At most one tag row per (natural id, description) pair. -/
def tagPairNodup (rows : List TagRow) : Prop :=
  (rows.map (fun r => (r.id, r.description))).Nodup

/-- Fixture: a well-formed minimal payload `data` block. -/
def gdata : AppData :=
  { steam_appid := some 6, type := some "game", is_free := some true,
    name := some "Y", controller_support := none, metacritic := none,
    recommendations := none, achievements := none, release_date := none,
    genres := none, categories := none }

/-- Fixture: payload whose `data` lacks the required `type` key. -/
def badItem : Item :=
  ⟨5, some true,
   some { gdata with
           steam_appid := some 5, type := none, name := some "X" }⟩

/-- Fixture: a well-formed payload for appid 6. -/
def goodItem : Item := ⟨6, some true, some gdata⟩

/-- Fixture: entry 1 referencing category natural id 1, description "A". -/
def cdataA : AppData :=
  { gdata with
     steam_appid := some 1, name := some "A",
     categories := some [⟨1, "A"⟩] }

/-- Fixture: entry 2 referencing category natural id 1, description "B". -/
def cdataB : AppData :=
  { gdata with
     steam_appid := some 2, name := some "B",
     categories := some [⟨1, "B"⟩] }

/-- Fixture: remote listing with the single entry 7. -/
def names7 : List (Int × String) := [(7, "G")]

/-- Fixture: a fetch function answering entry 7 with a good payload. -/
def fetch7 : Int → Resp := fun a =>
  if a == 7 then
    .ok ⟨7, some true,
         some { gdata with steam_appid := some 7, name := some "G" }⟩
  else .httpError "nope"

/-- Fixture: the ledger state after quarantining id 10 with reason "boom". -/
def dbC1 : DB := ⟨1, [], [], [], [], [⟨0, 10, .str "A", some "boom"⟩]⟩

/-- Fixture: a payload whose remote reports `success=False`. -/
def itemSF : Item := ⟨5, some false, none⟩

/-- Fixture: the ledger state after quarantining id 5 for success=False. -/
def dbC2 : DB :=
  ⟨1, [], [], [], [], [⟨0, 5, .str "X", some "Response from api: success=False"⟩]⟩

/-- Fixture: the stored row produced by importing entry 7's payload at 0. -/
def rowC6 : SteamAppRow :=
  ⟨0, 7, some "game", some true, "G", none, none, none, none, some 0, none,
   0, 0, [], []⟩

/-- Fixture: the database after one pipeline run over `names7`. -/
def dbC6 : DB := ⟨1, [rowC6], [], [], [], []⟩

/-- Fixture: a stored row with a positive achievement total. -/
def rowPos : SteamAppRow := { rowC6 with appid := 8, achievements_total := some 3 }

/-- Fixture: a refreshed payload for entry 7 with a changed display name. -/
def dataC8 : AppData := { gdata with steam_appid := some 7, name := some "G2" }

/-- Fixture: the stored row produced by loading `gdata` into an empty store. -/
def rowY : SteamAppRow :=
  ⟨0, 6, some "game", some true, "Y", none, none, none, none, some 0, none,
   0, 0, [], []⟩

/-- Fixture: the database holding exactly `rowY`. -/
def dbY : DB := ⟨1, [rowY], [], [], [], []⟩

/-! ## Helper lemmas -/

theorem mem_dedupFirst {α : Type} [DecidableEq α] {l : List α} {a : α} :
    a ∈ dedupFirst l ↔ a ∈ l := by
  induction l with
  | nil => simp [dedupFirst]
  | cons b l ih =>
    simp only [dedupFirst, List.mem_cons, List.mem_filter, ih,
      decide_eq_true_eq]
    constructor
    · rintro (rfl | ⟨h, _⟩)
      · exact .inl rfl
      · exact .inr h
    · rintro (rfl | h)
      · exact .inl rfl
      · by_cases hab : a = b
        · exact .inl hab
        · exact .inr ⟨h, hab⟩

theorem nodup_dedupFirst {α : Type} [DecidableEq α] (l : List α) :
    (dedupFirst l).Nodup := by
  induction l with
  | nil => simp [dedupFirst]
  | cons b l ih =>
    simp only [dedupFirst, List.nodup_cons]
    refine ⟨fun hmem => ?_, List.Nodup.filter _ ih⟩
    simp only [List.mem_filter, decide_eq_true_eq] at hmem
    exact hmem.2 rfl

theorem sortByUpdated_perm (l : List (Int × Nat)) :
    List.Perm (sortByUpdated l) l :=
  List.perm_insertionSort byUpdated l

theorem sortByUpdated_sorted (l : List (Int × Nat)) :
    (sortByUpdated l).Pairwise byUpdated :=
  List.sorted_insertionSort byUpdated l

theorem getAppidsFromDb_perm (db : DB) :
    List.Perm (getAppidsFromDb db) (localPairs db) :=
  sortByUpdated_perm _

theorem mem_missingAppids {names : List (Int × String)} {db : DB} {a : Int} :
    a ∈ missingAppids names db ↔ a ∈ dictKeys names ∧ a ∉ dbAppids db := by
  have hperm := ((getAppidsFromDb_perm db).map (fun p => p.1)).mem_iff (a := a)
  have hids : (localPairs db).map (fun p => p.1) = dbAppids db := by
    simp [localPairs, dbAppids, List.map_map, Function.comp]
  rw [hids] at hperm
  simp only [missingAppids, List.mem_filter, Bool.not_eq_true', ← Bool.not_eq_true,
    List.elem_iff]
  rw [hperm]

theorem mem_staleDbAppids {db : DB} {now : Nat} {a : Int} :
    a ∈ staleDbAppids db now ↔
      ∃ u, (a, u) ∈ localPairs db ∧ 3 < (dateOf now : Int) - (dateOf u : Int) := by
  simp only [staleDbAppids, List.mem_map, List.mem_filter, decide_eq_true_eq]
  constructor
  · rintro ⟨p, ⟨hmem, hstale⟩, rfl⟩
    exact ⟨p.2, (getAppidsFromDb_perm db).mem_iff.mp hmem, hstale⟩
  · rintro ⟨u, hmem, hstale⟩
    exact ⟨(a, u), ⟨(getAppidsFromDb_perm db).mem_iff.mpr hmem, hstale⟩, rfl⟩

theorem mem_appidsToProcess {names : List (Int × String)} {db : DB} {now : Nat}
    {a : Int} :
    a ∈ appidsToProcess names db now ↔
      ((a ∈ dictKeys names ∧ a ∉ dbAppids db) ∨
       (∃ u, (a, u) ∈ localPairs db ∧ 3 < (dateOf now : Int) - (dateOf u : Int))) ∧
      a ∉ getErrorAppids db := by
  simp only [appidsToProcess, List.mem_filter, List.mem_append, Bool.not_eq_true',
    ← Bool.not_eq_true, List.elem_iff, mem_missingAppids, mem_staleDbAppids]

theorem recordAppidError_ok {db : DB} {a : Int} {n : NameVal} {r : Option String}
    {db' : DB} (h : recordAppidError db a n r = .ok db') :
    db'.apps = db.apps ∧ db'.achievements = db.achievements ∧
    (∃ tail, db'.appid_errors = db.appid_errors ++ tail) ∧
    a ∈ getErrorAppids db' := by
  unfold recordAppidError at h
  split at h
  · next row hfind =>
    cases h
    have hp := List.find?_some hfind
    have hmem := List.mem_of_find?_eq_some hfind
    simp only [decide_eq_true_eq] at hp
    refine ⟨rfl, rfl, ⟨[], by simp⟩, ?_⟩
    simp only [getErrorAppids, List.mem_map]
    exact ⟨row, hmem, hp.1⟩
  · split at h
    · cases h
    · cases h
      refine ⟨rfl, rfl, ⟨[⟨db.nextPk, a, n, r⟩], rfl⟩, ?_⟩
      simp [getErrorAppids]

theorem getErrorAppids_mono {db db' : DB}
    (h : ∃ tail, db'.appid_errors = db.appid_errors ++ tail) :
    ∀ x ∈ getErrorAppids db, x ∈ getErrorAppids db' := by
  obtain ⟨tail, htail⟩ := h
  intro x hx
  simp only [getErrorAppids, List.mem_map] at hx ⊢
  obtain ⟨row, hrow, hxe⟩ := hx
  exact ⟨row, by simp [htail, hrow], hxe⟩

theorem loadIntoDb_ok {db : DB} {data : AppData} {now : Nat} {db' : DB}
    {row : SteamAppRow} (h : loadIntoDb db data now = .ok (db', row)) :
    db'.appid_errors = db.appid_errors ∧ db'.achievements = db.achievements ∧
    row.updated = now ∧ data.steam_appid = some row.appid ∧ row ∈ db'.apps ∧
    (db'.apps = db.apps.map (fun r => if r.appid == row.appid then row else r) ∨
     (db'.apps = db.apps ++ [row] ∧ row.appid ∉ dbAppids db)) := by
  unfold loadIntoDb at h
  simp only [] at h
  split at h
  · simp at h
  next sid hsid =>
    split at h
    · simp at h
    next ty hty =>
      split at h
      · simp at h
      next nm hnm =>
        split at h
        · simp at h
        next hlen =>
          split at h
          next old rest hex =>
            cases h
            have hold : old ∈ db.apps.filter (fun r => r.appid == sid) := by
              rw [hex]; exact List.mem_cons_self _ _
            have hold' := List.mem_filter.mp hold
            refine ⟨rfl, rfl, rfl, hsid, ?_, .inl rfl⟩
            simp only [List.mem_map]
            exact ⟨old, hold'.1, by simp [hold'.2]⟩
          next hex =>
            cases h
            refine ⟨rfl, rfl, rfl, hsid, by simp, .inr ⟨rfl, ?_⟩⟩
            intro hmem
            simp only [dbAppids, List.mem_map] at hmem
            obtain ⟨r, hr, hre⟩ := hmem
            have := List.filter_eq_nil_iff.mp hex r hr
            simp [hre] at this

theorem loadIntoDb_ids {db : DB} {data : AppData} {now : Nat} {db' : DB}
    {row : SteamAppRow} (h : loadIntoDb db data now = .ok (db', row)) :
    dbAppids db' = dbAppids db ∨
      (dbAppids db' = dbAppids db ++ [row.appid] ∧ row.appid ∉ dbAppids db) := by
  rcases (loadIntoDb_ok h).2.2.2.2.2 with hup | ⟨hins, hnotin⟩
  · left
    simp only [dbAppids, hup, List.map_map]
    apply List.map_congr_left
    intro r _
    simp only [Function.comp_apply]
    split
    · next hbeq => exact (beq_iff_eq.mp hbeq).symm
    · rfl
  · right
    refine ⟨?_, hnotin⟩
    simp [dbAppids, hins]

theorem loadIntoDb_nodup {db : DB} {data : AppData} {now : Nat} {db' : DB}
    {row : SteamAppRow} (h : loadIntoDb db data now = .ok (db', row))
    (hnd : appidNodup db) : appidNodup db' := by
  rcases loadIntoDb_ids h with hids | ⟨hids, hnotin⟩
  · unfold appidNodup
    rw [show db'.apps.map (fun r => r.appid) = dbAppids db' from rfl, hids]
    exact hnd
  · unfold appidNodup
    rw [show db'.apps.map (fun r => r.appid) = dbAppids db' from rfl, hids]
    simp only [List.nodup_append, List.nodup_cons, List.not_mem_nil,
      not_false_iff, List.nodup_nil, and_true, true_and]
    exact ⟨hnd, fun a ha hb => by simp at hb; exact hnotin (hb ▸ ha)⟩

theorem loadIntoDb_ids_mono {db : DB} {data : AppData} {now : Nat} {db' : DB}
    {row : SteamAppRow} (h : loadIntoDb db data now = .ok (db', row)) :
    ∀ x ∈ dbAppids db, x ∈ dbAppids db' := by
  rcases loadIntoDb_ids h with hids | ⟨hids, _⟩
  · rw [hids]; exact fun x hx => hx
  · rw [hids]; exact fun x hx => List.mem_append_left _ hx

theorem loadIntoDb_rows {db : DB} {data : AppData} {now : Nat} {db' : DB}
    {row : SteamAppRow} (h : loadIntoDb db data now = .ok (db', row)) :
    ∀ r ∈ db'.apps, r ∈ db.apps ∨ r.updated = now := by
  have hupd := (loadIntoDb_ok h).2.2.1
  rcases (loadIntoDb_ok h).2.2.2.2.2 with hup | ⟨hins, _⟩
  · intro r hr
    rw [hup] at hr
    simp only [List.mem_map] at hr
    obtain ⟨r0, hr0, hre⟩ := hr
    by_cases hc : (r0.appid == row.appid) = true
    · right; rw [← hre]; simp [hc, hupd]
    · left; rw [← hre]; simp [hc]; exact hr0
  · intro r hr
    rw [hins] at hr
    rcases List.mem_append.mp hr with hl | hsing
    · exact .inl hl
    · right; simp at hsing; rw [hsing]; exact hupd

theorem loadIntoDb_resolved {db : DB} {data : AppData} {now : Nat} {db' : DB}
    {row : SteamAppRow} (h : loadIntoDb db data now = .ok (db', row)) :
    ∀ x, resolvedAt db now x → resolvedAt db' now x := by
  intro x hx
  have herr := (loadIntoDb_ok h).1
  rcases hx with hq | ⟨r, hr, hra, hru⟩
  · left
    simp only [getErrorAppids] at hq ⊢
    rw [herr]; exact hq
  · rcases (loadIntoDb_ok h).2.2.2.2.2 with hup | ⟨hins, _⟩
    · by_cases hc : (r.appid == row.appid) = true
      · right
        refine ⟨row, (loadIntoDb_ok h).2.2.2.2.1, ?_, (loadIntoDb_ok h).2.2.1⟩
        rw [← hra]; exact (beq_iff_eq.mp hc).symm
      · right
        refine ⟨r, ?_, hra, hru⟩
        rw [hup]
        simp only [List.mem_map]
        exact ⟨r, hr, by simp [hc]⟩
    · right
      refine ⟨r, ?_, hra, hru⟩
      rw [hins]
      exact List.mem_append_left _ hr

theorem importSingleItem_ok {db : DB} {item : Item} {now : Nat} {db' : DB}
    {row : SteamAppRow} (h : importSingleItem db item now = .ok (db', row)) :
    row.appid = item.appidKey ∧
      ∃ data, item.data = some data ∧ loadIntoDb db data now = .ok (db', row) := by
  unfold importSingleItem at h
  split at h
  · simp at h
  · simp at h
  next =>
    split at h
    · simp at h
    next data hdata =>
      split at h
      · simp at h
      next sid hsid =>
        split at h
        · simp at h
        next hne =>
          have hkey : item.appidKey = sid := by
            by_contra hc; exact hne hc
          have := (loadIntoDb_ok h).2.2.2.1
          rw [hsid] at this
          cases this
          exact ⟨hkey.symm, data, hdata, h⟩

theorem loadIntoDb_error_shape {db : DB} {data : AppData} {now : Nat} {e : PyErr}
    (h : loadIntoDb db data now = .error e) :
    ∀ a r, e ≠ .dataParsingError a r := by
  unfold loadIntoDb at h
  simp only [] at h
  split at h
  · simp only [Except.error.injEq] at h
    subst h; intro a r hc; cases hc
  next =>
    split at h
    · simp only [Except.error.injEq] at h
      subst h; intro a r hc; cases hc
    next =>
      split at h
      · simp only [Except.error.injEq] at h
        subst h; intro a r hc; cases hc
      next =>
        split at h
        · simp only [Except.error.injEq] at h
          subst h; intro a r hc; cases hc
        next =>
          split at h
          · simp at h
          · simp at h

theorem importSingleItem_dpe {db : DB} {item : Item} {now : Nat} {a : Int}
    {r : String} (h : importSingleItem db item now = .error (.dataParsingError a r)) :
    a = item.appidKey := by
  unfold importSingleItem at h
  split at h
  · simp at h
  · simp only [Except.error.injEq, PyErr.dataParsingError.injEq] at h
    exact h.1.symm
  next =>
    split at h
    · simp at h
    next data hdata =>
      split at h
      · simp at h
      next sid hsid =>
        split at h
        · simp only [Except.error.injEq, PyErr.dataParsingError.injEq] at h
          exact h.1.symm
        next hne =>
          exfalso
          rcases hload : loadIntoDb db data now with e | p
          · rw [hload] at h
            simp only [Except.error.injEq] at h
            exact loadIntoDb_error_shape hload a r h
          · rw [hload] at h; simp at h

theorem recordAppidError_resolved {db : DB} {a : Int} {n : NameVal}
    {r : Option String} {db' : DB} (h : recordAppidError db a n r = .ok db') :
    ∀ x (now : Nat), resolvedAt db now x → resolvedAt db' now x := by
  intro x now hx
  have R := recordAppidError_ok h
  rcases hx with hq | ⟨rr, hrr, hrra, hrru⟩
  · exact .inl (getErrorAppids_mono R.2.2.1 x hq)
  · exact .inr ⟨rr, by rw [R.1]; exact hrr, hrra, hrru⟩

theorem storeAppsData_ok {names : List (Int × String)} {now : Nat}
    {items : List Item} {db db' : DB} {apps : List SteamAppRow}
    (h : storeAppsData db names now items = .ok (db', apps)) :
    (∃ tail, db'.appid_errors = db.appid_errors ++ tail) ∧
    (∀ x ∈ dbAppids db, x ∈ dbAppids db') ∧
    (appidNodup db → appidNodup db') ∧
    (∀ r ∈ db'.apps, r ∈ db.apps ∨ r.updated = now) ∧
    (∀ x, resolvedAt db now x → resolvedAt db' now x) ∧
    (∀ item ∈ items, resolvedAt db' now item.appidKey) := by
  induction items generalizing db db' apps with
  | nil =>
    unfold storeAppsData at h
    simp only [Except.ok.injEq, Prod.mk.injEq] at h
    obtain ⟨rfl, rfl⟩ := h
    exact ⟨⟨[], by simp⟩, fun x hx => hx, id, fun r hr => .inl hr,
      fun x hx => hx, by simp⟩
  | cons item rest ih =>
    unfold storeAppsData at h
    split at h
    next db1 app himp =>
      split at h
      next db2 apps2 hrec =>
        cases h
        obtain ⟨hkey, data, hdata, hload⟩ := importSingleItem_ok himp
        have L := loadIntoDb_ok hload
        obtain ⟨htail1, hmono1, hnd1, hrows1, hres1, hitems1⟩ := ih hrec
        refine ⟨?_, ?_, ?_, ?_, ?_, ?_⟩
        · obtain ⟨t, ht⟩ := htail1
          exact ⟨t, by rw [ht, L.1]⟩
        · intro x hx
          exact hmono1 _ (loadIntoDb_ids_mono hload x hx)
        · intro hnd
          exact hnd1 (loadIntoDb_nodup hload hnd)
        · intro rrow hr
          rcases hrows1 rrow hr with h1 | h2
          · exact loadIntoDb_rows hload rrow h1
          · exact .inr h2
        · intro x hx
          exact hres1 x (loadIntoDb_resolved hload x hx)
        · intro it hit
          rcases List.mem_cons.mp hit with rfl | hmem
          · refine hres1 _ (.inr ⟨app, L.2.2.2.2.1, hkey, L.2.2.1⟩)
          · exact hitems1 it hmem
      next e hrec => simp at h
    next a r himp =>
      split at h
      next db1 hrecord =>
        obtain ⟨htail1, hmono1, hnd1, hrows1, hres1, hitems1⟩ := ih h
        have R := recordAppidError_ok hrecord
        have hkey := importSingleItem_dpe himp
        refine ⟨?_, ?_, ?_, ?_, ?_, ?_⟩
        · obtain ⟨t1, ht1⟩ := R.2.2.1
          obtain ⟨t2, ht2⟩ := htail1
          exact ⟨t1 ++ t2, by rw [ht2, ht1, List.append_assoc]⟩
        · intro x hx
          apply hmono1
          have : dbAppids db1 = dbAppids db := by
            unfold dbAppids; rw [R.1]
          rw [this]
          exact hx
        · intro hnd
          apply hnd1
          unfold appidNodup at hnd ⊢
          rw [R.1]
          exact hnd
        · intro rrow hr
          rcases hrows1 rrow hr with h1 | h2
          · rw [R.1] at h1; exact .inl h1
          · exact .inr h2
        · intro x hx
          exact hres1 x (recordAppidError_resolved hrecord x now hx)
        · intro it hit
          rcases List.mem_cons.mp hit with rfl | hmem
          · refine hres1 _ (.inl ?_)
            rw [← hkey]
            exact R.2.2.2
          · exact hitems1 it hmem
      next e hrecord => simp at h
    next e h1 h2 himp => simp at h

theorem resolved_of_frame {db db' : DB} (happs : db'.apps = db.apps)
    (herr : ∃ tail, db'.appid_errors = db.appid_errors ++ tail) :
    ∀ x (now : Nat), resolvedAt db now x → resolvedAt db' now x := by
  intro x now hx
  rcases hx with hq | ⟨rr, hrr, hrra, hrru⟩
  · exact .inl (getErrorAppids_mono herr x hq)
  · exact .inr ⟨rr, by rw [happs]; exact hrr, hrra, hrru⟩

theorem getAppsData_ok {names : List (Int × String)} {fetch : Int → Resp}
    {appids : List Int} {db db' : DB} {items : List Item}
    (h : getAppsData db names fetch appids = .ok (db', items)) :
    db'.apps = db.apps ∧ db'.achievements = db.achievements ∧
    (∃ tail, db'.appid_errors = db.appid_errors ++ tail) ∧
    (∀ a ∈ appids, (∃ item ∈ items, fetch a = .ok item) ∨ a ∈ getErrorAppids db') := by
  induction appids generalizing db db' items with
  | nil =>
    unfold getAppsData at h
    simp only [Except.ok.injEq, Prod.mk.injEq] at h
    obtain ⟨rfl, rfl⟩ := h
    exact ⟨rfl, rfl, ⟨[], by simp⟩, by simp⟩
  | cons a rest ih =>
    unfold getAppsData at h
    split at h
    next item hfa =>
      split at h
      next db1 items1 hrec =>
        cases h
        obtain ⟨happs, hach, htail, hcov⟩ := ih hrec
        refine ⟨happs, hach, htail, ?_⟩
        intro x hx
        rcases List.mem_cons.mp hx with rfl | hmem
        · exact .inl ⟨item, List.mem_cons_self _ _, hfa⟩
        · rcases hcov x hmem with ⟨it, hit, hfx⟩ | herr
          · exact .inl ⟨it, List.mem_cons_of_mem _ hit, hfx⟩
          · exact .inr herr
      next e hrec => simp at h
    next reason hfa =>
      split at h
      · simp at h
      next n hget =>
        split at h
        next db1 hrecord =>
          obtain ⟨happs, hach, htail, hcov⟩ := ih h
          have R := recordAppidError_ok hrecord
          refine ⟨by rw [happs, R.1], by rw [hach, R.2.1], ?_, ?_⟩
          · obtain ⟨t1, ht1⟩ := R.2.2.1
            obtain ⟨t2, ht2⟩ := htail
            exact ⟨t1 ++ t2, by rw [ht2, ht1, List.append_assoc]⟩
          · intro x hx
            rcases List.mem_cons.mp hx with rfl | hmem
            · exact .inr (getErrorAppids_mono htail x R.2.2.2)
            · exact hcov x hmem
        next e hrecord => simp at h

theorem storeAppsPairs_frame (l : List (SteamAppRow × List AchievementData)) :
    ∀ db : DB, (storeAppsPairs db l).apps = db.apps ∧
      (storeAppsPairs db l).appid_errors = db.appid_errors := by
  induction l with
  | nil => intro db; exact ⟨rfl, rfl⟩
  | cons p rest ih =>
    intro db
    unfold storeAppsPairs
    exact ih _

theorem runEnrichment_frame (db : DB) (apps : List SteamAppRow)
    (afetch : Int → List AchievementData) :
    (runEnrichment db apps afetch).apps = db.apps ∧
      (runEnrichment db apps afetch).appid_errors = db.appid_errors :=
  storeAppsPairs_frame _ db

theorem runBatch_ok {names : List (Int × String)} {fetch : Int → Resp}
    {afetch : Int → List AchievementData} {now : Nat} {db db' : DB}
    {batch : List Int}
    (hkey : ∀ a item, fetch a = .ok item → item.appidKey = a)
    (h : runBatch names fetch afetch now db batch = .ok db') :
    (∃ tail, db'.appid_errors = db.appid_errors ++ tail) ∧
    (∀ x ∈ dbAppids db, x ∈ dbAppids db') ∧
    (appidNodup db → appidNodup db') ∧
    (∀ r ∈ db'.apps, r ∈ db.apps ∨ r.updated = now) ∧
    (∀ x, resolvedAt db now x → resolvedAt db' now x) ∧
    (∀ a ∈ batch, resolvedAt db' now a) := by
  unfold runBatch at h
  split at h
  · simp at h
  next db1 apps hgs =>
    split at h
    · simp at h
    next l hach =>
      cases h
      unfold getAndStoreAppData at hgs
      split at hgs
      next dbg items hga =>
        obtain ⟨hgapps, hgach, hgtail, hgcov⟩ := getAppsData_ok hga
        obtain ⟨hstail, hsmono, hsnd, hsrows, hsres, hsitems⟩ := storeAppsData_ok hgs
        have hef := runEnrichment_frame db1 l afetch
        have hgidseq : dbAppids dbg = dbAppids db := by
          unfold dbAppids; rw [hgapps]
        have hidseq : dbAppids (runEnrichment db1 l afetch) = dbAppids db1 := by
          unfold dbAppids; rw [hef.1]
        have heres : ∀ x, resolvedAt db1 now x →
            resolvedAt (runEnrichment db1 l afetch) now x :=
          fun x hx => resolved_of_frame hef.1 ⟨[], by simp [hef.2]⟩ x now hx
        refine ⟨?_, ?_, ?_, ?_, ?_, ?_⟩
        · obtain ⟨t1, ht1⟩ := hgtail
          obtain ⟨t2, ht2⟩ := hstail
          exact ⟨t1 ++ t2, by rw [hef.2, ht2, ht1, List.append_assoc]⟩
        · intro x hx
          rw [hidseq]
          exact hsmono x (by rw [hgidseq]; exact hx)
        · intro hnd
          have : appidNodup dbg := by
            unfold appidNodup at hnd ⊢; rw [hgapps]; exact hnd
          have hnd1 := hsnd this
          unfold appidNodup at hnd1 ⊢
          rw [hef.1]
          exact hnd1
        · intro r hr
          rw [hef.1] at hr
          rcases hsrows r hr with h1 | h2
          · rw [hgapps] at h1; exact .inl h1
          · exact .inr h2
        · intro x hx
          refine heres x (hsres x ?_)
          exact resolved_of_frame hgapps hgtail x now hx
        · intro a ha
          rcases hgcov a ha with ⟨item, hitem, hfa⟩ | herr
          · have := hsitems item hitem
            rw [hkey a item hfa] at this
            exact heres a this
          · refine heres a (hsres a (.inl herr))
      next e hga => simp at hgs

theorem runBatches_ok {names : List (Int × String)} {fetch : Int → Resp}
    {afetch : Int → List AchievementData} {now : Nat} {db db' : DB}
    {batches : List (List Int)}
    (hkey : ∀ a item, fetch a = .ok item → item.appidKey = a)
    (h : runBatches names fetch afetch now db batches = .ok db') :
    (∃ tail, db'.appid_errors = db.appid_errors ++ tail) ∧
    (∀ x ∈ dbAppids db, x ∈ dbAppids db') ∧
    (appidNodup db → appidNodup db') ∧
    (∀ r ∈ db'.apps, r ∈ db.apps ∨ r.updated = now) ∧
    (∀ x, resolvedAt db now x → resolvedAt db' now x) ∧
    (∀ b ∈ batches, ∀ a ∈ b, resolvedAt db' now a) := by
  induction batches generalizing db db' with
  | nil =>
    unfold runBatches at h
    simp only [Except.ok.injEq] at h
    subst h
    exact ⟨⟨[], by simp⟩, fun x hx => hx, id, fun r hr => .inl hr,
      fun x hx => hx, by simp⟩
  | cons b rest ih =>
    unfold runBatches at h
    split at h
    next db1 hb =>
      obtain ⟨btail, bmono, bnd, brows, bres, bcov⟩ := runBatch_ok hkey hb
      obtain ⟨rtail, rmono, rnd, rrows, rres, rcov⟩ := ih h
      refine ⟨?_, ?_, ?_, ?_, ?_, ?_⟩
      · obtain ⟨t1, ht1⟩ := btail
        obtain ⟨t2, ht2⟩ := rtail
        exact ⟨t1 ++ t2, by rw [ht2, ht1, List.append_assoc]⟩
      · intro x hx; exact rmono x (bmono x hx)
      · intro hnd; exact rnd (bnd hnd)
      · intro r hr
        rcases rrows r hr with h1 | h2
        · exact brows r h1
        · exact .inr h2
      · intro x hx; exact rres x (bres x hx)
      · intro bb hbb a ha
        rcases List.mem_cons.mp hbb with rfl | hmem
        · exact rres a (bcov a ha)
        · exact rcov bb hmem a ha
    next e hb => simp at h

theorem chunkListAux_flatten (n : Nat) :
    ∀ (fuel : Nat) (l : List Int), l.length ≤ fuel →
      (chunkListAux n fuel l).flatten = l := by
  intro fuel
  induction fuel with
  | zero =>
    intro l hl
    match l, hl with
    | [], _ => rfl
  | succ fuel ih =>
    intro l hl
    match l with
    | [] => rfl
    | a :: rest =>
      simp only [chunkListAux, List.flatten_cons, List.cons_append]
      rw [ih]
      · rw [List.take_append_drop]
      · simp only [List.length_cons] at hl
        have := List.length_drop (n - 1) rest
        omega

theorem chunkList_flatten (n : Nat) (l : List Int) :
    (chunkList n l).flatten = l :=
  chunkListAux_flatten n l.length l (Nat.le_refl _)

theorem chunkList_cover {n : Nat} {l : List Int} {a : Int} (ha : a ∈ l) :
    ∃ b ∈ chunkList n l, a ∈ b := by
  rw [← chunkList_flatten n l] at ha
  simpa using List.mem_flatten.mp ha

theorem runPipeline_ok {names : List (Int × String)} {fetch : Int → Resp}
    {afetch : Int → List AchievementData} {now : Nat} {db db' : DB}
    (hkey : ∀ a item, fetch a = .ok item → item.appidKey = a)
    (h : runPipeline names fetch afetch now db = .ok db') :
    (∃ tail, db'.appid_errors = db.appid_errors ++ tail) ∧
    (∀ x ∈ dbAppids db, x ∈ dbAppids db') ∧
    (appidNodup db → appidNodup db') ∧
    (∀ r ∈ db'.apps, r ∈ db.apps ∨ r.updated = now) ∧
    (∀ x, resolvedAt db now x → resolvedAt db' now x) ∧
    (∀ a ∈ appidsToProcess names db now, resolvedAt db' now a) := by
  unfold runPipeline at h
  obtain ⟨htail, hmono, hnd, hrows, hres, hcov⟩ := runBatches_ok hkey h
  refine ⟨htail, hmono, hnd, hrows, hres, ?_⟩
  intro a ha
  obtain ⟨b, hb, hab⟩ := chunkList_cover (n := BATCH_SIZE) ha
  exact hcov b hb a hab

theorem localPairs_mem {db : DB} {a : Int} {u : Nat} :
    (a, u) ∈ localPairs db ↔ ∃ r ∈ db.apps, r.appid = a ∧ r.updated = u := by
  simp only [localPairs, List.mem_map, Prod.mk.injEq]

/-- Core of the second-run analysis: after a successful run at `now`, a run
on the resulting database at any time on the same calendar date selects no
work at all. -/
theorem appidsToProcess_after_run {names : List (Int × String)}
    {fetch : Int → Resp} {afetch : Int → List AchievementData} {now now2 : Nat}
    {db db1 : DB}
    (hkey : ∀ a item, fetch a = .ok item → item.appidKey = a)
    (hnd : appidNodup db)
    (hrun : runPipeline names fetch afetch now db = .ok db1)
    (hdate : dateOf now2 = dateOf now) :
    appidsToProcess names db1 now2 = [] := by
  obtain ⟨htail, hmono, hndp, hrows, hres, hcov⟩ := runPipeline_ok hkey hrun
  rw [List.eq_nil_iff_forall_not_mem]
  intro a ha
  rw [mem_appidsToProcess] at ha
  obtain ⟨hsel, herr1⟩ := ha
  rcases hsel with ⟨hrem, hnotin1⟩ | ⟨u, hu, hstale⟩
  · -- a is missing from db1: it must have been selected and resolved in run 1
    by_cases herr0 : a ∈ getErrorAppids db
    · exact herr1 (getErrorAppids_mono htail a herr0)
    · by_cases hin0 : a ∈ dbAppids db
      · exact hnotin1 (hmono a hin0)
      · have hsel1 : a ∈ appidsToProcess names db now :=
          mem_appidsToProcess.mpr ⟨.inl ⟨hrem, hin0⟩, herr0⟩
        rcases hcov a hsel1 with hq | ⟨r, hr, hra, _⟩
        · exact herr1 hq
        · exact hnotin1 (by simp only [dbAppids, List.mem_map]; exact ⟨r, hr, hra⟩)
  · -- a is stale in db1: its row must be an untouched old row, but then it
    -- was already stale in run 1 and was resolved there
    obtain ⟨r, hr, hra, hru⟩ := localPairs_mem.mp hu
    rcases hrows r hr with hold | hnew
    · by_cases herr0 : a ∈ getErrorAppids db
      · exact herr1 (getErrorAppids_mono htail a herr0)
      · have hu0 : (a, u) ∈ localPairs db :=
          localPairs_mem.mpr ⟨r, hold, hra, hru⟩
        have hstale0 : 3 < (dateOf now : Int) - (dateOf u : Int) := by
          rw [← hdate]; exact hstale
        have hsel1 : a ∈ appidsToProcess names db now :=
          mem_appidsToProcess.mpr ⟨.inr ⟨u, hu0, hstale0⟩, herr0⟩
        rcases hcov a hsel1 with hq | ⟨r', hr', hra', hru'⟩
        · exact herr1 hq
        · -- both r and r' are rows of db1 with appid a; uniqueness forces
          -- r = r', so u = now and the staleness bound is violated
          have hnd1 : appidNodup db1 := hndp hnd
          unfold appidNodup at hnd1
          have : r = r' :=
            List.inj_on_of_nodup_map hnd1 hr hr' (by rw [hra, hra'])
          rw [this, hru'] at hru
          rw [← hru, hdate] at hstale
          omega
    · rw [hnew] at hru
      rw [← hru, hdate] at hstale
      omega

theorem runBatch_errors {names : List (Int × String)} {fetch : Int → Resp}
    {afetch : Int → List AchievementData} {now : Nat} {db db' : DB}
    {batch : List Int}
    (h : runBatch names fetch afetch now db batch = .ok db') :
    ∃ tail, db'.appid_errors = db.appid_errors ++ tail := by
  unfold runBatch at h
  split at h
  · simp at h
  next db1 apps hgs =>
    split at h
    · simp at h
    next l hach =>
      cases h
      unfold getAndStoreAppData at hgs
      split at hgs
      next dbg items hga =>
        obtain ⟨t1, ht1⟩ := (getAppsData_ok hga).2.2.1
        obtain ⟨t2, ht2⟩ := (storeAppsData_ok hgs).1
        have hef := runEnrichment_frame db1 l afetch
        exact ⟨t1 ++ t2, by rw [hef.2, ht2, ht1, List.append_assoc]⟩
      next e hga => simp at hgs

theorem runBatches_errors {names : List (Int × String)} {fetch : Int → Resp}
    {afetch : Int → List AchievementData} {now : Nat} {db db' : DB}
    {batches : List (List Int)}
    (h : runBatches names fetch afetch now db batches = .ok db') :
    ∃ tail, db'.appid_errors = db.appid_errors ++ tail := by
  induction batches generalizing db db' with
  | nil =>
    unfold runBatches at h
    simp only [Except.ok.injEq] at h
    subst h
    exact ⟨[], by simp⟩
  | cons b rest ih =>
    unfold runBatches at h
    split at h
    next db1 hb =>
      obtain ⟨t1, ht1⟩ := runBatch_errors hb
      obtain ⟨t2, ht2⟩ := ih h
      exact ⟨t1 ++ t2, by rw [ht2, ht1, List.append_assoc]⟩
    next e hb => simp at h

theorem runPipeline_errors {names : List (Int × String)} {fetch : Int → Resp}
    {afetch : Int → List AchievementData} {now : Nat} {db db' : DB}
    (h : runPipeline names fetch afetch now db = .ok db') :
    ∃ tail, db'.appid_errors = db.appid_errors ++ tail :=
  runBatches_errors h

theorem runPipeline_empty_work {names : List (Int × String)} {fetch : Int → Resp}
    {afetch : Int → List AchievementData} {now : Nat} {db : DB}
    (h : appidsToProcess names db now = []) :
    runPipeline names fetch afetch now db = .ok db := by
  unfold runPipeline
  rw [h]
  simp [chunkList, runBatches]

/-! ## Claims -/

/-- C1 counterexample: the claim says a transport failure during batch fetch
is never written to the quarantine ledger.  In the code, `get_apps_data`
calls `record_appid_error` in its `except httpx.HTTPError` branch: fetching
id 10 against a transport that fails with "boom" leaves 10 in the ledger. -/
theorem C1_counterexample :
    (getAppsData dbEmpty [(10, "A")] (fun _ => .httpError "boom") [10]).map
      (fun p => getErrorAppids p.1) = .ok [10] := rfl

/-- C1 amended: an id whose HTTP request fails with a transport failure
during a batch fetch IS written to the quarantine ledger (with the failure
reason) whenever the batch loop completes, it is absent from the run's
successes, and it is therefore NOT eligible for selection on a later run. -/
theorem C1_amended {db db' : DB} {names : List (Int × String)}
    {appids : List Int} {fetch : Int → Resp} {a : Int} {reason : String}
    {items : List Item} (now : Nat) (ha : a ∈ appids)
    (hf : fetch a = .httpError reason)
    (hok : getAppsData db names fetch appids = .ok (db', items)) :
    a ∈ getErrorAppids db' ∧ a ∉ appidsToProcess names db' now := by
  have hcov := (getAppsData_ok hok).2.2.2
  have hmem : a ∈ getErrorAppids db' := by
    rcases hcov a ha with ⟨item, _, hfa⟩ | herr
    · rw [hf] at hfa; cases hfa
    · exact herr
  exact ⟨hmem, fun hsel => (mem_appidsToProcess.mp hsel).2 hmem⟩

/-- C1 amended, witnessed at a concrete transport failure for id 10. -/
theorem C1_amended_witness :
    10 ∈ getErrorAppids dbC1 ∧ 10 ∉ appidsToProcess [(10, "A")] dbC1 0 := by
  have hok : getAppsData dbEmpty [(10, "A")] (fun _ => .httpError "boom") [10] =
      .ok (dbC1, []) := rfl
  exact C1_amended 0 (by simp) rfl hok

/-- C2 counterexample: the claim says a payload missing a required scalar
field (here the kind, `type`) is quarantined with a reason and the batch
continues.  In the code the missing key raises an uncaught `KeyError`
inside `load_into_db`, so the whole batch aborts: nothing is recorded for
id 5 and the following well-formed payload for id 6 is never processed. -/
theorem C2_counterexample :
    storeAppsData dbEmpty [(5, "X"), (6, "Y")] 0 [badItem, goodItem] =
      .error (.keyError "type") := rfl

/-- C2 amended: only the two failures the parser classifies itself — a
`success` flag equal to False, and an embedded natural id different from
the requested one — are raised as `DataParsingError`, recorded in the
quarantine ledger with their human-readable reason (entry not written),
after which processing continues with the remaining items; a payload with
an absent success flag or a missing required scalar field instead raises an
uncaught key lookup error that aborts the batch. -/
theorem C2_amended (db : DB) (names : List (Int × String)) (item : Item)
    (rest : List Item) (now : Nat) :
    (item.success = some false →
      importSingleItem db item now =
        .error (.dataParsingError item.appidKey "Response from api: success=False")) ∧
    (∀ data sid, item.success = some true → item.data = some data →
      data.steam_appid = some sid → item.appidKey ≠ sid →
      importSingleItem db item now =
        .error (.dataParsingError item.appidKey
          ("duplicate entry with current appid " ++ toString item.appidKey ++
           " and steam appid: " ++ toString sid))) ∧
    (∀ a r db1, importSingleItem db item now = .error (.dataParsingError a r) →
      recordAppidError db a (dictGetNameD names a) (some r) = .ok db1 →
      storeAppsData db names now (item :: rest) = storeAppsData db1 names now rest ∧
      db1.apps = db.apps ∧ a ∈ getErrorAppids db1) := by
  refine ⟨?_, ?_, ?_⟩
  · intro hs
    unfold importSingleItem
    rw [hs]
  · intro data sid hs hd hsid hne
    unfold importSingleItem
    rw [hs, hd]
    simp only []
    rw [hsid]
    simp only []
    rw [if_pos hne]
  · intro a r db1 himp hrec
    have R := recordAppidError_ok hrec
    refine ⟨?_, R.1, R.2.2.2⟩
    rw [storeAppsData.eq_def]
    simp only []
    rw [himp]
    simp only []
    rw [hrec]

/-- C2 amended, witnessed at a concrete success=False payload for id 5. -/
theorem C2_amended_witness :
    importSingleItem dbEmpty itemSF 0 =
      .error (.dataParsingError 5 "Response from api: success=False") ∧
    storeAppsData dbEmpty [(5, "X")] 0 [itemSF] =
      storeAppsData dbC2 [(5, "X")] 0 [] ∧
    5 ∈ getErrorAppids dbC2 := by
  have H := C2_amended dbEmpty [(5, "X")] itemSF [] 0
  have h1 := H.1 rfl
  have h3 := H.2.2 5 "Response from api: success=False" dbC2 h1 rfl
  exact ⟨h1, h3.1, h3.2.2⟩

/-- C4: an id recorded in the quarantine ledger is excluded from the work
set computed over that database, and a full pipeline run never removes it
from the ledger, so it stays excluded from every later run's work set. -/
theorem C4_quarantine_excluded {db : DB} {a : Int}
    (names : List (Int × String)) (now : Nat) (fetch : Int → Resp)
    (afetch : Int → List AchievementData)
    (h : a ∈ getErrorAppids db) :
    a ∉ appidsToProcess names db now ∧
    ∀ db', runPipeline names fetch afetch now db = .ok db' →
      a ∈ getErrorAppids db' := by
  refine ⟨fun hsel => (mem_appidsToProcess.mp hsel).2 h, ?_⟩
  intro db' hrun
  exact getErrorAppids_mono (runPipeline_errors hrun) a h

/-- C4, witnessed at the quarantined id 10, which the remote listing still
carries (so it is also missing from local storage). -/
theorem C4_quarantine_excluded_witness :
    10 ∉ appidsToProcess [(10, "A")] dbC1 0 ∧
    ∀ db', runPipeline [(10, "A")] (fun _ => .httpError "boom") (fun _ => [])
        0 dbC1 = .ok db' → 10 ∈ getErrorAppids db' :=
  C4_quarantine_excluded [(10, "A")] 0 (fun _ => .httpError "boom")
    (fun _ => []) (by simp [getErrorAppids, dbC1])

/-- C7: the driver's achievement gate `app.achievements_total > 0` selects,
from the entries written in the current batch, exactly those with a
positive achievement total — an entry with total 0 is never passed to the
achievement fetch, an entry with a positive total always is, and the
enricher then issues one fetch per selected entry. -/
theorem C7_gating {apps l : List SteamAppRow}
    (h : appsWithAchievements apps = .ok l) :
    (∀ a, a ∈ l ↔ a ∈ apps ∧ ∃ n, a.achievements_total = some n ∧ 0 < n) ∧
    ∀ afetch, getAppsAchievements l afetch = l.map (fun a => afetch a.appid) := by
  refine ⟨?_, fun _ => rfl⟩
  induction apps generalizing l with
  | nil =>
    unfold appsWithAchievements at h
    simp only [Except.ok.injEq] at h
    subst h
    simp
  | cons b rest ih =>
    unfold appsWithAchievements at h
    split at h
    · simp at h
    next n hn =>
      split at h
      next l1 hrec =>
        simp only [Except.ok.injEq] at h
        subst h
        intro a
        by_cases hpos : 0 < n
        · simp only [if_pos hpos, List.mem_cons, ih hrec]
          constructor
          · rintro (rfl | ⟨hm, hex⟩)
            · exact ⟨.inl rfl, n, hn, hpos⟩
            · exact ⟨.inr hm, hex⟩
          · rintro ⟨rfl | hm, hex⟩
            · exact .inl rfl
            · exact .inr ⟨hm, hex⟩
        · simp only [if_neg hpos, ih hrec, List.mem_cons]
          constructor
          · rintro ⟨hm, hex⟩
            exact ⟨.inr hm, hex⟩
          · rintro ⟨rfl | hm, n', hn', hpos'⟩
            · rw [hn] at hn'
              cases hn'
              exact absurd hpos' hpos
            · exact ⟨hm, n', hn', hpos'⟩
      next e hrec => simp at h

/-- C7, witnessed at a batch holding one zero-total and one positive-total
entry: only the positive one reaches the fetch list. -/
theorem C7_gating_witness :
    (rowPos ∈ [rowPos] ↔ rowPos ∈ [rowC6, rowPos] ∧
      ∃ n, rowPos.achievements_total = some n ∧ 0 < n) ∧
    (rowC6 ∈ [rowPos] ↔ rowC6 ∈ [rowC6, rowPos] ∧
      ∃ n, rowC6.achievements_total = some n ∧ 0 < n) := by
  have h : appsWithAchievements [rowC6, rowPos] = .ok [rowPos] := rfl
  have H := C7_gating h
  exact ⟨H.1 rowPos, H.1 rowC6⟩

/-- C10: every successful normalize-and-write stores a non-null integer
achievement total — exactly the payload's total, which defaults to 0 when
the payload carries no achievements block — so the driver's comparison
`achievements_total > 0` never sees NULL for an entry written this run. -/
theorem C10_total_int {db : DB} {data : AppData} {now : Nat} {db' : DB}
    {row : SteamAppRow} (h : loadIntoDb db data now = .ok (db', row)) :
    row.achievements_total = some (achievementsTotalOf data) ∧
    (data.achievements = none → achievementsTotalOf data = 0) := by
  constructor
  · unfold loadIntoDb at h
    simp only [] at h
    split at h
    · simp at h
    next =>
      split at h
      · simp at h
      next =>
        split at h
        · simp at h
        next =>
          split at h
          · simp at h
          next =>
            split at h
            next =>
              simp only [Except.ok.injEq, Prod.mk.injEq] at h
              rw [← h.2]
            next =>
              simp only [Except.ok.injEq, Prod.mk.injEq] at h
              rw [← h.2]
  · intro hnone
    unfold achievementsTotalOf
    rw [hnone]

/-- C10, witnessed at a payload with no achievements block. -/
theorem C10_total_int_witness :
    rowY.achievements_total = some (achievementsTotalOf gdata) ∧
    (gdata.achievements = none → achievementsTotalOf gdata = 0) := by
  have h : loadIntoDb dbEmpty gdata 0 = .ok (dbY, rowY) := rfl
  exact C10_total_int h

/-- C5 counterexample: the claim says a tag with a given natural id is
created at most once.  `get_or_create` matches on every kwarg — id AND
description — so two entries referencing category id 1 with different
descriptions create two stored rows that share the natural id 1. -/
theorem C5_counterexample :
    ((loadIntoDb dbEmpty cdataA 0).bind fun p =>
      (loadIntoDb p.1 cdataB 1).map fun q =>
        q.1.categories.map (fun r => r.id)) = .ok [1, 1] := rfl

/-- C5 amended: a tag row with a given (natural id, description) pair is
created at most once; every entry referencing a tag with that id and that
description resolves to the one stored row carrying the pair, no stored row
is ever removed, and no second row with the same pair is ever created. -/
theorem C5_amended (rows : List TagRow) (nextPk : Nat) (t : TagData)
    (h : tagPairNodup rows) :
    tagPairNodup (getOrCreateTag rows nextPk t).2.1 ∧
    (getOrCreateTag rows nextPk t).1 ∈ (getOrCreateTag rows nextPk t).2.1 ∧
    (getOrCreateTag rows nextPk t).1.id = t.id ∧
    (getOrCreateTag rows nextPk t).1.description = t.description ∧
    (∀ r ∈ (getOrCreateTag rows nextPk t).2.1,
      r.id = t.id → r.description = t.description →
      r = (getOrCreateTag rows nextPk t).1) ∧
    (∀ r ∈ rows, r ∈ (getOrCreateTag rows nextPk t).2.1) := by
  unfold getOrCreateTag
  rcases hfind : rows.find?
      (fun r => r.id == t.id && r.description == t.description) with _ | r0
  · rw [hfind]
    simp only []
    have hfnone := List.find?_eq_none.mp hfind
    have hnotmem : ∀ r ∈ rows, ¬(r.id = t.id ∧ r.description = t.description) := by
      intro r hr hc
      have := hfnone r hr
      simp only [Bool.and_eq_true, beq_iff_eq] at this
      exact this ⟨hc.1, hc.2⟩
    refine ⟨?_, ?_, by trivial, by trivial, ?_, ?_⟩
    · unfold tagPairNodup at h ⊢
      rw [List.map_append]
      rw [List.nodup_append]
      refine ⟨h, by simp, ?_⟩
      intro p hp
      simp only [List.mem_map] at hp
      obtain ⟨r, hr, hrp⟩ := hp
      simp only [List.map_cons, List.map_nil, List.mem_singleton]
      intro hpe
      rw [hpe] at hrp
      have : r.id = t.id ∧ r.description = t.description := by
        constructor
        · exact congrArg Prod.fst hrp
        · exact congrArg Prod.snd hrp
      exact hnotmem r hr this
    · simp
    · intro r hr hid hdesc
      rcases List.mem_append.mp hr with hl | hsing
      · exact absurd ⟨hid, hdesc⟩ (hnotmem r hl)
      · simpa using hsing
    · intro r hr
      exact List.mem_append_left _ hr
  · rw [hfind]
    simp only []
    have hp := List.find?_some hfind
    have hmem := List.mem_of_find?_eq_some hfind
    simp only [Bool.and_eq_true, beq_iff_eq] at hp
    refine ⟨h, hmem, hp.1, hp.2, ?_, fun r hr => hr⟩
    intro r hr hid hdesc
    unfold tagPairNodup at h
    refine List.inj_on_of_nodup_map h hr hmem ?_
    rw [hid, hdesc, hp.1, hp.2]

/-- C5 amended, witnessed at a fresh tag (1, "A") over an empty table. -/
theorem C5_amended_witness :
    tagPairNodup (getOrCreateTag [] 0 ⟨1, "A"⟩).2.1 ∧
    (getOrCreateTag [] 0 ⟨1, "A"⟩).1 ∈ (getOrCreateTag [] 0 ⟨1, "A"⟩).2.1 ∧
    (getOrCreateTag [] 0 ⟨1, "A"⟩).1.id = 1 ∧
    (getOrCreateTag [] 0 ⟨1, "A"⟩).1.description = "A" ∧
    (∀ r ∈ (getOrCreateTag [] 0 ⟨1, "A"⟩).2.1,
      r.id = 1 → r.description = "A" → r = (getOrCreateTag [] 0 ⟨1, "A"⟩).1) ∧
    (∀ r ∈ ([] : List TagRow), r ∈ (getOrCreateTag [] 0 ⟨1, "A"⟩).2.1) :=
  C5_amended [] 0 ⟨1, "A"⟩ (by simp [tagPairNodup])

/-- C8: on the update path — a row with the payload's natural id already
stored — the writer overwrites every mutable column with the freshly
normalized value, refreshes `updated`, and leaves the surrogate key, the
natural id and `created` unchanged, replacing the row in place. -/
theorem C8_update_path {db : DB} {data : AppData} {now : Nat} {sid : Int}
    {ty nm : String} {old : SteamAppRow}
    (hsid : data.steam_appid = some sid) (hty : data.type = some ty)
    (hnm : data.name = some nm)
    (hold : db.apps.filter (fun r => r.appid == sid) = [old]) :
    ∃ db' row, loadIntoDb db data now = .ok (db', row) ∧
      row.pk = old.pk ∧ row.appid = old.appid ∧ row.created = old.created ∧
      row.updated = now ∧ row.type = some ty ∧ row.is_free = data.is_free ∧
      row.name = nm ∧ row.controller_support = data.controller_support ∧
      row.metacritic_score = metacriticScoreOf data ∧
      row.metacritic_url = metacriticUrlOf data ∧
      row.recommendations = recommendationsOf data ∧
      row.achievements_total = some (achievementsTotalOf data) ∧
      row.release_date = releaseDateOf data ∧
      db'.apps = db.apps.map (fun r => if r.appid == sid then row else r) := by
  have holdmem : old ∈ db.apps.filter (fun r => r.appid == sid) := by
    rw [hold]; exact List.mem_cons_self _ _
  have holdid : old.appid = sid := by
    have := (List.mem_filter.mp holdmem).2
    exact beq_iff_eq.mp this
  unfold loadIntoDb
  simp only []
  rw [hsid]
  simp only []
  rw [hty]
  simp only []
  rw [hnm]
  simp only []
  rw [hold]
  exact ⟨_, _, rfl, rfl, holdid.symm, rfl, rfl, rfl, rfl, rfl, rfl, rfl, rfl,
    rfl, rfl, rfl, rfl⟩

/-- C8, witnessed by refreshing entry 7 with a payload whose display name
changed. -/
theorem C8_update_path_witness :
    ∃ db' row, loadIntoDb dbC6 dataC8 5 = .ok (db', row) ∧
      row.pk = rowC6.pk ∧ row.appid = rowC6.appid ∧ row.created = rowC6.created ∧
      row.updated = 5 ∧ row.type = some "game" ∧ row.is_free = dataC8.is_free ∧
      row.name = "G2" ∧ row.controller_support = dataC8.controller_support ∧
      row.metacritic_score = metacriticScoreOf dataC8 ∧
      row.metacritic_url = metacriticUrlOf dataC8 ∧
      row.recommendations = recommendationsOf dataC8 ∧
      row.achievements_total = some (achievementsTotalOf dataC8) ∧
      row.release_date = releaseDateOf dataC8 ∧
      db'.apps = dbC6.apps.map (fun r => if r.appid == 7 then row else r) :=
  C8_update_path rfl rfl rfl rfl

/-- C9: the achievement fetch returns one result list per input entry, in
input order — the i-th fetched list is the i-th entry's — and the store
step consumes exactly the list of (entry, its own fetched list) pairs, so
achievements are never attributed to a different entry. -/
theorem C9_order (apps : List SteamAppRow) (afetch : Int → List AchievementData)
    (db : DB) :
    (getAppsAchievements apps afetch).length = apps.length ∧
    (∀ i (hi : i < apps.length),
      (getAppsAchievements apps afetch).get
          ⟨i, by simpa [getAppsAchievements] using hi⟩ =
        afetch ((apps.get ⟨i, hi⟩).appid)) ∧
    apps.zip (getAppsAchievements apps afetch) =
      apps.map (fun a => (a, afetch a.appid)) ∧
    storeAppsAchievements db apps (getAppsAchievements apps afetch) =
      storeAppsPairs db (apps.map (fun a => (a, afetch a.appid))) := by
  have hzip : apps.zip (getAppsAchievements apps afetch) =
      apps.map (fun a => (a, afetch a.appid)) := by
    unfold getAppsAchievements
    induction apps with
    | nil => rfl
    | cons a rest ih => simp only [List.map_cons, List.zip_cons_cons, ih]
  refine ⟨by simp [getAppsAchievements], ?_, hzip, ?_⟩
  · intro i hi
    simp [getAppsAchievements, List.getElem_map]
  · unfold storeAppsAchievements
    rw [hzip]

/-- C9, witnessed at a two-entry batch. -/
theorem C9_order_witness :
    (getAppsAchievements [rowC6, rowPos] (fun _ => [])).length =
      ([rowC6, rowPos] : List SteamAppRow).length ∧
    (getAppsAchievements [rowC6, rowPos] (fun _ => [])).get
        ⟨0, by simp [getAppsAchievements]⟩ =
      (fun _ => ([] : List AchievementData)) (rowC6.appid) := by
  have H := C9_order [rowC6, rowPos] (fun _ => []) dbEmpty
  exact ⟨H.1, H.2.1 0 (by simp)⟩

theorem filter_map_fst (q : Int → Bool) (l : List (Int × Nat)) :
    (l.map (fun p => p.1)).filter q =
      (l.filter (fun p => q p.1)).map (fun p => p.1) := by
  induction l with
  | nil => rfl
  | cons p rest ih =>
    simp only [List.map_cons, List.filter_cons]
    by_cases hq : q p.1 = true
    · simp [hq, ih]
    · simp [hq, ih]

theorem localPairs_map_fst (db : DB) :
    (localPairs db).map (fun p => p.1) = dbAppids db := by
  simp [localPairs, dbAppids, List.map_map, Function.comp]

/-- C3: the work set equals (missing ∪ stale) − quarantined — missing being
the remote ids with no local row, stale the locally stored ids whose
last-updated calendar date lies more than 3 days before today's — with each
id at most once, all missing ids before all stale ids, and the stale ids in
ascending order of their last-updated timestamps. -/
theorem C3_work_set (names : List (Int × String)) (db : DB) (now : Nat)
    (hnd : appidNodup db) :
    (∀ a, a ∈ appidsToProcess names db now ↔
        ((a ∈ dictKeys names ∧ a ∉ dbAppids db) ∨
         (∃ u, (a, u) ∈ localPairs db ∧
           3 < (dateOf now : Int) - (dateOf u : Int))) ∧
        a ∉ getErrorAppids db) ∧
    (appidsToProcess names db now).Nodup ∧
    (∃ (m : List Int) (ps : List (Int × Nat)),
      appidsToProcess names db now = m ++ ps.map (fun p => p.1) ∧
      (∀ a ∈ m, a ∈ dictKeys names ∧ a ∉ dbAppids db ∧
        a ∉ getErrorAppids db) ∧
      (∀ p ∈ ps, p ∈ localPairs db ∧
        3 < (dateOf now : Int) - (dateOf p.2 : Int) ∧
        p.1 ∉ getErrorAppids db) ∧
      ps.Pairwise byUpdated) := by
  refine ⟨fun a => mem_appidsToProcess, ?_, ?_⟩
  · unfold appidsToProcess
    apply List.Nodup.filter
    rw [List.nodup_append]
    refine ⟨?_, ?_, ?_⟩
    · unfold missingAppids
      exact List.Nodup.filter _ (nodup_dedupFirst _)
    · unfold staleDbAppids
      have hperm : List.Perm ((getAppidsFromDb db).map (fun p => p.1))
          (dbAppids db) := by
        have := (getAppidsFromDb_perm db).map (fun p => p.1)
        rw [localPairs_map_fst] at this
        exact this
      have hsorted_nodup : ((getAppidsFromDb db).map (fun p => p.1)).Nodup :=
        hperm.nodup_iff.mpr hnd
      have hsub : (((getAppidsFromDb db).filter
          (fun p => decide (3 < (dateOf now : Int) - (dateOf p.2 : Int)))).map
            (fun p => p.1)).Sublist
          ((getAppidsFromDb db).map (fun p => p.1)) :=
        (List.filter_sublist _).map _
      exact hsorted_nodup.sublist hsub
    · intro a ha hb
      have h1 := mem_missingAppids.mp ha
      obtain ⟨u, hu, _⟩ := mem_staleDbAppids.mp hb
      apply h1.2
      rw [← localPairs_map_fst]
      exact List.mem_map.mpr ⟨(a, u), hu, rfl⟩
  · refine ⟨(missingAppids names db).filter
        (fun a => !(getErrorAppids db).contains a),
      ((getAppidsFromDb db).filter
        (fun p => decide (3 < (dateOf now : Int) - (dateOf p.2 : Int)))).filter
        (fun p => !(getErrorAppids db).contains p.1), ?_, ?_, ?_, ?_⟩
    · unfold appidsToProcess staleDbAppids
      rw [List.filter_append]
      congr 1
      exact filter_map_fst _ _
    · intro a ha
      have hfa := List.mem_filter.mp ha
      have hm := mem_missingAppids.mp hfa.1
      refine ⟨hm.1, hm.2, ?_⟩
      simpa [List.elem_iff] using hfa.2
    · intro p hp
      have h2 := List.mem_filter.mp hp
      have h1 := List.mem_filter.mp h2.1
      refine ⟨(getAppidsFromDb_perm db).mem_iff.mp h1.1, by simpa using h1.2, ?_⟩
      simpa [List.elem_iff] using h2.2
    · apply List.Pairwise.sublist (List.filter_sublist _)
      apply List.Pairwise.sublist (List.filter_sublist _)
      exact sortByUpdated_sorted _

/-- C3, witnessed at the one-entry remote listing over the empty store. -/
theorem C3_work_set_witness :
    (appidsToProcess names7 dbEmpty 0).Nodup ∧
    ((7 : Int) ∈ appidsToProcess names7 dbEmpty 0 ↔
      ((7 : Int) ∈ dictKeys names7 ∧ (7 : Int) ∉ dbAppids dbEmpty ∨
       (∃ u, ((7 : Int), u) ∈ localPairs dbEmpty ∧
         3 < (dateOf 0 : Int) - (dateOf u : Int))) ∧
      (7 : Int) ∉ getErrorAppids dbEmpty) := by
  have H := C3_work_set names7 dbEmpty 0 (by simp [appidNodup, dbEmpty])
  exact ⟨H.2.1, H.1 7⟩

/-- C6 counterexample: the claim says the second of two back-to-back runs
advances the `updated` timestamp.  Running the pipeline twice in immediate
succession (100 ticks apart, same calendar day) over an unchanged remote
leaves the single stored entry's `updated` at 0 after both runs: the second
run selects no work, so `updated` does not advance. -/
theorem C6_counterexample :
    ((runPipeline names7 fetch7 (fun _ => []) 0 dbEmpty).bind fun db1 =>
      (runPipeline names7 fetch7 (fun _ => []) 100 db1).map fun db2 =>
        (db1.apps.map (fun r => r.updated), db2.apps.map (fun r => r.updated))) =
    .ok ([0], [0]) := rfl

/-- C6 amended: running the full pipeline twice in succession (the second
run on the same UTC calendar date) with unchanged remote data leaves the
whole store unchanged — the second run selects no work, and every stored
entry is identical between the two runs in every field, the `updated`
timestamp included. -/
theorem C6_amended {names : List (Int × String)} {fetch : Int → Resp}
    {afetch : Int → List AchievementData} {now now2 : Nat} {db db1 : DB}
    (hkey : ∀ a item, fetch a = .ok item → item.appidKey = a)
    (hnd : appidNodup db)
    (hrun : runPipeline names fetch afetch now db = .ok db1)
    (hdate : dateOf now2 = dateOf now) :
    runPipeline names fetch afetch now2 db1 = .ok db1 :=
  runPipeline_empty_work (appidsToProcess_after_run hkey hnd hrun hdate)

/-- C6 amended, witnessed at the concrete one-entry remote listing: the
second run 100 ticks later returns the database unchanged. -/
theorem C6_amended_witness :
    runPipeline names7 fetch7 (fun _ => []) 100 dbC6 = .ok dbC6 := by
  have hrun : runPipeline names7 fetch7 (fun _ => []) 0 dbEmpty = .ok dbC6 := rfl
  refine C6_amended ?_ ?_ hrun rfl
  · intro a item h
    unfold fetch7 at h
    split at h
    next hbeq =>
      simp only [Resp.ok.injEq] at h
      rw [← h]
      exact (beq_iff_eq.mp hbeq).symm
    next => cases h
  · simp [appidNodup, dbEmpty]

end Steam2Sqlite
